import Mathlib

/-!
Shallow embedding of the configuration-aggregation core of the
`beast-mode-ext` repository (services/ConfigurationService.ts,
services/SchemaInferenceService.ts — including the NewSettingsTracker —
utils/StateManager.ts, utils/common.ts), together with theorems settling
the specification claims about it.

Runtime JavaScript values are modelled by the inductive `JVal`; JavaScript
numbers are modelled as integers (the code under verification performs no
arithmetic on them, only coercion and equality).  Exceptions are modelled
with `Except Unit`; every function wrapped in a catch-all `try` in the
source is total here.
-/

/-- Model of a runtime JavaScript value (numbers restricted to integers). -/
inductive JVal where
  | undefined : JVal
  | null : JVal
  | bool : Bool → JVal
  | num : Int → JVal
  | str : String → JVal
  | arr : List JVal → JVal
  | obj : List (String × JVal) → JVal

/-- JavaScript truthiness of a value. -/
def jsTruthy : JVal → Bool
  | .undefined => false
  | .null => false
  | .bool b => b
  | .num n => n != 0
  | .str s => s != ""
  | .arr _ => true
  | .obj _ => true

/-- Whether a value is distinct from `undefined`. -/
def isDefined : JVal → Bool
  | .undefined => false
  | _ => true

/-- Whether a value is `undefined` or `null`. -/
def isNullish : JVal → Bool
  | .undefined => true
  | .null => true
  | _ => false

/-- JavaScript `||`: the first operand when truthy, otherwise the second. -/
def jsOr (a b : JVal) : JVal := if jsTruthy a then a else b

/-- JavaScript `??`: the first operand unless it is `null` or `undefined`. -/
def jsCoalesce (a b : JVal) : JVal := if isNullish a then b else a

/-- Property access `v[name]`: only objects yield a value, all other
receivers give `undefined` for the property names this code reads. -/
def JVal.getField : JVal → String → JVal
  | .obj fields, name =>
    match fields.find? (fun p => p.1 == name) with
    | some p => p.2
    | none => .undefined
  | _, _ => .undefined

/-- The `.length` property as read by the code (strings, arrays, and a
possible explicit `length` field on plain objects). -/
def jsLength : JVal → JVal
  | .str s => .num (Int.ofNat s.length)
  | .arr xs => .num (Int.ofNat xs.length)
  | .obj fields => JVal.getField (.obj fields) "length"
  | _ => .undefined

/-- Functional update of one property on an object value (JS `obj[k] = v`
or a spread followed by an explicit property). -/
def setField : List (String × JVal) → String → JVal → List (String × JVal)
  | [], name, v => [(name, v)]
  | (k, w) :: rest, name, v =>
    if k == name then (name, v) :: rest else (k, w) :: setField rest name v

/-- Object property assignment on a `JVal`. -/
def objSet (v : JVal) (name : String) (val : JVal) : JVal :=
  match v with
  | .obj fields => .obj (setField fields name val)
  | _ => .obj [(name, val)]

/-- Split a character list at a separator, keeping empty segments
(JavaScript `split` with a single-character separator). -/
def splitOnCharAux (sep : Char) : List Char → List Char → List String
  | [], acc => [String.mk acc.reverse]
  | c :: rest, acc =>
    if c = sep then String.mk acc.reverse :: splitOnCharAux sep rest []
    else splitOnCharAux sep rest (c :: acc)

/-- JavaScript `s.split(sep)` for a one-character separator. -/
def splitOnChar (sep : Char) (s : String) : List String :=
  splitOnCharAux sep s.toList []

/-- An ASCII whitespace character as removed by `String.prototype.trim`. -/
def isJsSpace (c : Char) : Bool :=
  c = ' ' || c = '\t' || c = '\n' || c = '\r' || c = '\x0b' || c = '\x0c'

/-- JavaScript `s.trim()` (restricted to ASCII whitespace). -/
def jsTrim (s : String) : String :=
  String.mk (((s.toList.dropWhile isJsSpace).reverse.dropWhile isJsSpace).reverse)


mutual

/-- JavaScript `String(v)` coercion. -/
def jsToString : JVal → String
  | .undefined => "undefined"
  | .null => "null"
  | .bool b => if b then "true" else "false"
  | .num n => toString n
  | .str s => s
  | .arr xs => joinElems xs
  | .obj _ => "[object Object]"

/-- `Array.prototype.join(",")` as used by array-to-string coercion:
`null` and `undefined` elements render as the empty string. -/
def joinElems : List JVal → String
  | [] => ""
  | x :: xs =>
    let sx := match x with
      | .undefined => ""
      | .null => ""
      | v => jsToString v
    match xs with
    | [] => sx
    | _ => sx ++ "," ++ joinElems xs

end

/-- Parse an optional run of decimal digits into a natural number. -/
def parseDigits : List Char → Option Nat
  | [] => none
  | cs =>
    if cs.all (fun c => c.isDigit) then
      some (cs.foldl (fun acc c => acc * 10 + (c.toNat - 48)) 0)
    else
      none

/-- JavaScript `ToNumber` on a string, restricted to the integer literals
representable in this model (`none` plays the role of `NaN`). -/
def jsStringToNumber (s : String) : Option Int :=
  let t := jsTrim s
  if t = "" then some 0
  else
    match t.toList with
    | '-' :: rest => (parseDigits rest).map (fun n => -(n : Int))
    | '+' :: rest => (parseDigits rest).map (fun n => (n : Int))
    | cs => (parseDigits cs).map (fun n => (n : Int))

/-- JavaScript `Number(v)` coercion; `none` plays the role of `NaN`.
Arrays coerce through their string form, plain objects give `NaN`. -/
def jsToNumber : JVal → Option Int
  | .undefined => none
  | .null => some 0
  | .bool b => some (if b then 1 else 0)
  | .num n => some n
  | .str s => jsStringToNumber s
  | .arr xs => jsStringToNumber (jsToString (.arr xs))
  | .obj _ => none

/-- Escape one character for a JSON string literal. -/
def jsonEscapeChar (c : Char) : String :=
  if c = '"' then "\\\""
  else if c = '\\' then "\\\\"
  else if c = '\n' then "\\n"
  else if c = '\r' then "\\r"
  else if c = '\t' then "\\t"
  else String.singleton c

/-- Render a string as a JSON string literal. -/
def jsonQuote (s : String) : String :=
  "\"" ++ String.join (s.toList.map jsonEscapeChar) ++ "\""

mutual

/-- JavaScript `JSON.stringify`; `none` models the `undefined` result. -/
def jsonStringify : JVal → Option String
  | .undefined => none
  | .null => some "null"
  | .bool b => some (if b then "true" else "false")
  | .num n => some (toString n)
  | .str s => some (jsonQuote s)
  | .arr xs => some ("[" ++ String.intercalate "," (jsonArrElems xs) ++ "]")
  | .obj fs => some ("\x7b" ++ String.intercalate "," (jsonObjFields fs) ++ "\x7d")

/-- Array elements under `JSON.stringify`; `undefined` renders as `null`. -/
def jsonArrElems : List JVal → List String
  | [] => []
  | x :: xs =>
    (match jsonStringify x with
     | some s => s
     | none => "null") :: jsonArrElems xs

/-- Object fields under `JSON.stringify`; fields whose value stringifies
to `undefined` are dropped. -/
def jsonObjFields : List (String × JVal) → List String
  | [] => []
  | (k, v) :: rest =>
    match jsonStringify v with
    | some sv => (jsonQuote k ++ ":" ++ sv) :: jsonObjFields rest
    | none => jsonObjFields rest

end

/-- JavaScript `===` as exercised by this code: structural on primitives;
two non-primitive operands reaching this comparison are never aliased in
the program, so they compare unequal. -/
def jsStrictEq : JVal → JVal → Bool
  | .undefined, .undefined => true
  | .null, .null => true
  | .bool a, .bool b => a == b
  | .num a, .num b => a == b
  | .str a, .str b => a == b
  | _, _ => false

/-- One entry of a definition's `options` list; the code always builds
`value` with `String(...)`, which the options invariant makes precise. -/
structure SettingOption where
  value : JVal
  label : JVal

/-- Model of the `SettingDefinition` record (src/types/index.ts) as it
exists at runtime: fields populated from untrusted JSON carry arbitrary
values, so they are `JVal`. -/
structure SettingDefinition where
  key : String
  type : JVal
  title : JVal
  description : JVal
  group : JVal
  min : JVal
  max : JVal
  step : JVal
  options : Option (List SettingOption)
  requires : Option (List String)
  default : JVal
  recommended : JVal
  info : JVal := .undefined
  hasRecommendation : Option Bool := none
  matchesRecommendation : Option Bool := none

/-- Persisted tracker state (`NewSettingsState` in src/types/index.ts);
the `seenSettings` object is modelled as a shadowing association list —
the only observations made of it are single-key lookups. -/
structure NewSettingsState where
  seenSettings : List (String × String)
  lastConfigHash : Option String
  firstRun : Bool

/-- Lookup of `state.seenSettings[key]`. -/
def seenLookup (m : List (String × String)) (k : String) : Option String :=
  (m.find? (fun p => p.1 == k)).map (fun p => p.2)

/-- Assignment `state.seenSettings[key] = timestamp`. -/
def seenAssign (m : List (String × String)) (k ts : String) :
    List (String × String) :=
  (k, ts) :: m

/-- The default state created for new installations
(`NewSettingsTracker.createDefaultState`). -/
def createDefaultState : NewSettingsState :=
  { seenSettings := [], lastConfigHash := none, firstRun := true }

/-- `NewSettingsTracker.calculateConfigHash`: hash of the JSON rendering
of the sorted key list.  The digest (`crypto.createHash('sha256')`) is a
library call and is passed in as a parameter; the `catch` fallback of the
source is unreachable here because `JSON.stringify` of a string array
never throws. -/
def calculateConfigHash (digest : String → String)
    (definitions : List SettingDefinition) : String :=
  let keys := (definitions.map (fun d => d.key)).mergeSort (fun a b => a ≤ b)
  digest ((jsonStringify (.arr (keys.map JVal.str))).getD "")

/-- `NewSettingsTracker.isSettingNew`: `!this.state.seenSettings[key]`
(an absent key or a stored empty string is "new"). -/
def NewSettingsState.isSettingNew (s : NewSettingsState) (key : String) :
    Bool :=
  match seenLookup s.seenSettings key with
  | none => true
  | some t => t == ""

/-- `NewSettingsTracker.markAsSeen`; the single ISO timestamp taken from
the clock is passed in explicitly. -/
def markAsSeen (ts : String) (settingKeys : List String)
    (s : NewSettingsState) : NewSettingsState :=
  { s with
    seenSettings := settingKeys.foldl (fun m k => seenAssign m k ts) s.seenSettings }

/-- `NewSettingsTracker.markAllAsSeen`. -/
def markAllAsSeen (ts : String) (definitions : List SettingDefinition)
    (s : NewSettingsState) : NewSettingsState :=
  { s with
    seenSettings :=
      definitions.foldl (fun m d => seenAssign m d.key ts) s.seenSettings }

/-- `NewSettingsTracker.initialize`: on a first run mark every current
definition as seen and clear the flag, then record the configuration
hash.  (`saveState` persists the state and swallows storage errors; the
state value itself is the result here.) -/
def initializeTracker (digest : String → String) (ts : String)
    (definitions : List SettingDefinition) (s : NewSettingsState) :
    NewSettingsState :=
  let s1 :=
    if s.firstRun then
      { markAllAsSeen ts definitions s with firstRun := false }
    else s
  { s1 with lastConfigHash := some (calculateConfigHash digest definitions) }

/-- `NewSettingsTracker.detectNewSettings`: returns the detected
definitions together with the updated state. -/
def detectNewSettings (digest : String → String)
    (definitions : List SettingDefinition) (s : NewSettingsState) :
    List SettingDefinition × NewSettingsState :=
  let currentConfigHash := calculateConfigHash digest definitions
  if s.lastConfigHash = some currentConfigHash then
    ([], s)
  else
    let newSettings := definitions.filter (fun d => s.isSettingNew d.key)
    (newSettings, { s with lastConfigHash := some currentConfigHash })

/-- `NewSettingsTracker.getNewSettingsCount`. -/
def getNewSettingsCount (s : NewSettingsState)
    (definitions : List SettingDefinition) : Nat :=
  (definitions.filter (fun d => s.isSettingNew d.key)).length

/-- `NewSettingsTracker.clearState`. -/
def clearState (_s : NewSettingsState) : NewSettingsState :=
  createDefaultState

/-- `StateManager.compareValues`: type-aware comparison of a current
value against a recommended value.  The `json` branch of the source wraps
`JSON.stringify` in a `try`; in this model stringification is total, so
the catch arm is unreachable. -/
def compareValues (currentValue recommendedValue ty : JVal) : Bool :=
  if isNullish currentValue then
    isNullish recommendedValue
  else
    match ty with
    | .str "boolean" => jsTruthy currentValue == jsTruthy recommendedValue
    | .str "number" =>
      match jsToNumber currentValue, jsToNumber recommendedValue with
      | some a, some b => a == b
      | _, _ => false
    | .str "string" => jsToString currentValue == jsToString recommendedValue
    | .str "json" => jsonStringify currentValue == jsonStringify recommendedValue
    | _ => jsStrictEq currentValue recommendedValue

/-- `StateManager.evaluateRecommendations`, with the live configuration
store (`vscode.workspace.getConfiguration().get`) passed in as a
function from keys to values (`undefined` when unset). -/
def evaluateRecommendations (cfgGet : String → JVal)
    (definitions : List SettingDefinition) : List SettingDefinition :=
  definitions.map (fun def_ =>
    let hasRec := isDefined def_.recommended
    let matchesRec :=
      if hasRec then
        compareValues (cfgGet def_.key) def_.recommended def_.type
      else false
    { def_ with
      hasRecommendation := some hasRec
      matchesRecommendation := some matchesRec })

/-- Result of `SchemaInferenceService.findSchemaForKey` (the
`SchemaLookupResult` of src/types/index.ts); `extensionId` is always the
owning extension's id string. -/
structure SchemaLookupResult where
  schema : JVal
  extensionId : String

/-- The four layered values returned by
`vscode.workspace.getConfiguration().inspect(key)`; a failed or empty
inspection is the all-`undefined` record. -/
structure InspectInfo where
  globalValue : JVal := .undefined
  workspaceValue : JVal := .undefined
  workspaceFolderValue : JVal := .undefined
  defaultValue : JVal := .undefined

/-- Host environment injected into the enricher: the schema catalog scan,
this extension's own id, and configuration inspection. -/
structure EnrichEnv where
  findSchemaForKey : String → Option SchemaLookupResult
  selfExtensionId : String
  inspect : String → InspectInfo

/-- The mutable property record threaded through the enricher's three
passes (`inferFromSchema` / `refineFromConfiguration` /
`applyConfigOverrides`). -/
structure EnrichProps where
  type : JVal
  options : Option (List SettingOption)
  min : JVal
  max : JVal
  step : JVal
  requires : Option (List String)
  default : JVal

/-- `SchemaInferenceService.normalizeRequires`. -/
def normalizeRequires (input : JVal) : List String :=
  if ¬ jsTruthy input then []
  else
    match input with
    | .str s => [s]
    | .arr xs => xs.filterMap (fun v =>
        match v with
        | .str s => some s
        | _ => none)
    | _ => []

/-- `SchemaInferenceService.mergeRequires`: `new Set([...a, ...b])` keeps
first occurrences in insertion order. -/
def mergeRequires (a b : List String) : List String :=
  (a ++ b).foldl (fun acc x => if x ∈ acc then acc else acc ++ [x]) []

/-- The candidate option values drawn from `oneOf`/`anyOf` alternatives:
keep alternatives carrying a `const` or a truthy `enum`, take
`const ?? enum[0]`, and drop the `undefined` results. -/
def oneOfAltValues (xs : List JVal) : List JVal :=
  ((xs.filter (fun e =>
      jsTruthy e &&
        (isDefined (e.getField "const") || jsTruthy (e.getField "enum")))).map
    (fun e =>
      jsCoalesce (e.getField "const")
        (match e.getField "enum" with
         | .arr l => l.headD .undefined
         | _ => .undefined))).filter (fun v => isDefined v)

/-- The label paired with the i-th `enum` entry, from a parallel
`enumDescriptions` array. -/
def enumLabelAt (schema : JVal) (i : Nat) : JVal :=
  match schema.getField "enumDescriptions" with
  | .arr ds => ds.getD i .undefined
  | _ => .undefined

/-- `SchemaInferenceService.extractEnumOptions`: options from `enum`
(paired with `enumDescriptions`) or from `oneOf`/`anyOf` alternatives; a
truthy non-array `oneOf`/`anyOf` makes `.filter` throw a `TypeError`. -/
def extractEnumOptions (schema : JVal) :
    Except Unit (Option (List SettingOption)) :=
  match schema.getField "enum" with
  | .arr vs =>
    .ok (some (vs.enum.map (fun p =>
      { value := .str (jsToString p.2), label := enumLabelAt schema p.1 })))
  | _ =>
    if jsTruthy (jsOr (schema.getField "oneOf") (schema.getField "anyOf")) then
      match jsOr (schema.getField "oneOf") (schema.getField "anyOf") with
      | .arr xs =>
        if (oneOfAltValues xs).isEmpty then .ok none
        else .ok (some ((oneOfAltValues xs).map
          (fun v => { value := .str (jsToString v), label := .undefined })))
      | _ => .error ()
    else .ok none

/-- The declared-type dispatch of the schema pass: boolean / number or
integer (step 1 for integer) / object or array as structured / else
string. -/
def schemaTypeAndStep (sType : JVal) : JVal × JVal :=
  match sType with
  | .str "boolean" => (.str "boolean", .undefined)
  | .str "number" => (.str "number", .undefined)
  | .str "integer" => (.str "number", .num 1)
  | .str "object" => (.str "json", .undefined)
  | .str "array" => (.str "json", .undefined)
  | _ => (.str "string", .undefined)

/-- The schema carried by a lookup result (`found?.schema`). -/
def foundSchema (found : Option SchemaLookupResult) : JVal :=
  match found with
  | some r => r.schema
  | none => .undefined

/-- The base property record of the schema pass. -/
def baseProps (configDefault : JVal) : EnrichProps :=
  { type := .str "string", options := none, min := .undefined, max := .undefined,
    step := .undefined, requires := none, default := configDefault }

/-- The declared type of a schema node, unwrapping a type array
(`Array.isArray(schema.type) ? schema.type[0] : schema.type`). -/
def schemaDeclaredType (schema : JVal) : JVal :=
  match schema.getField "type" with
  | .arr xs => xs.headD .undefined
  | t => t

/-- A numeric bound (`minimum`/`maximum`) adopted only when the schema
field is a number. -/
def schemaNumericBound (schema : JVal) (name : String) : JVal :=
  match schema.getField name with
  | .num n => JVal.num n
  | _ => .undefined

/-- The capability requirement recorded when the owning extension is not
this one (`found?.extensionId && found.extensionId !== context.extension.id`). -/
def schemaRequires (selfExtensionId : String)
    (found : Option SchemaLookupResult) : Option (List String) :=
  match found with
  | some r =>
    if r.extensionId != "" && r.extensionId != selfExtensionId then
      some [r.extensionId]
    else none
  | none => none

/-- `SchemaInferenceService.inferFromSchema` (schema pass); a falsy
schema (the early return of the source) leaves the base record. -/
def inferFromSchema (selfExtensionId : String)
    (found : Option SchemaLookupResult) (configDefault : JVal) :
    Except Unit EnrichProps :=
  if ¬ jsTruthy (foundSchema found) then .ok (baseProps configDefault)
  else
    match extractEnumOptions (foundSchema found) with
    | .error e => .error e
    | .ok options =>
      .ok { type := (schemaTypeAndStep (schemaDeclaredType (foundSchema found))).1,
            options := options,
            min := schemaNumericBound (foundSchema found) "minimum",
            max := schemaNumericBound (foundSchema found) "maximum",
            step := (schemaTypeAndStep (schemaDeclaredType (foundSchema found))).2,
            requires := schemaRequires selfExtensionId found,
            default :=
              if ¬ isDefined configDefault
                  ∧ isDefined ((foundSchema found).getField "default") then
                (foundSchema found).getField "default"
              else configDefault }

/-- The sample drawn from the inspection layers
(`globalValue ?? workspaceValue ?? workspaceFolderValue ?? defaultValue`). -/
def inspectSample (info : InspectInfo) : JVal :=
  jsCoalesce info.globalValue
    (jsCoalesce info.workspaceValue
      (jsCoalesce info.workspaceFolderValue info.defaultValue))

/-- The `typeof sample` dispatch of the live-value pass; in this
integer-valued model every numeric sample satisfies `Number.isInteger`.
A `null` sample has `typeof` "object" but fails the `!== null` guard and
falls to the string arm, exactly as strings do. -/
def refineSample (sample : JVal) (props : EnrichProps) : EnrichProps :=
  match sample with
  | .bool _ => { props with type := .str "boolean" }
  | .num _ =>
    { props with
      type := .str "number"
      step := if ¬ isDefined props.step then .num 1 else props.step }
  | .arr _ => { props with type := .str "json" }
  | .obj _ => { props with type := .str "json" }
  | _ => { props with type := .str "string" }

/-- `SchemaInferenceService.refineFromConfiguration` (live-value pass). -/
def refineFromConfiguration (info : InspectInfo) (props : EnrichProps) :
    EnrichProps :=
  if ¬ isDefined (inspectSample info) then props
  else if ¬ isDefined (refineSample (inspectSample info) props).default
      ∧ isDefined info.defaultValue then
    { refineSample (inspectSample info) props with
      default := info.defaultValue }
  else refineSample (inspectSample info) props

/-- The scalar overrides of `applyConfigOverrides`
(`type`/`min`/`max`/`step`/`default`, in source order). -/
def overrideScalars (config : JVal) (props : EnrichProps) : EnrichProps :=
  let props := if jsTruthy (config.getField "type") then
      { props with type := config.getField "type" } else props
  let props := if isDefined (config.getField "min") then
      { props with min := config.getField "min" } else props
  let props := if isDefined (config.getField "max") then
      { props with max := config.getField "max" } else props
  let props := if isDefined (config.getField "step") then
      { props with step := config.getField "step" } else props
  if isDefined (config.getField "default") then
      { props with default := config.getField "default" } else props

/-- The `options` override of `applyConfigOverrides`: a truthy `options`
carrying a truthy `length` that is not an array makes `.map` throw a
`TypeError`. -/
def overrideOptions (config : JVal) (props : EnrichProps) :
    Except Unit EnrichProps :=
  if jsTruthy (config.getField "options") &&
      jsTruthy (jsLength (config.getField "options")) then
    match config.getField "options" with
    | .arr os =>
      .ok { props with options := some (os.map (fun o =>
        { value := .str (jsToString (o.getField "value")),
          label := o.getField "label" })) }
    | _ => .error ()
  else .ok props

/-- The `requires` override of `applyConfigOverrides`. -/
def overrideRequires (config : JVal) (props : EnrichProps) : EnrichProps :=
  if jsTruthy (config.getField "requires") &&
      jsTruthy (jsLength (config.getField "requires")) then
    { props with requires := some (normalizeRequires (config.getField "requires")) }
  else props

/-- `SchemaInferenceService.applyConfigOverrides` (explicit-override
pass), composed from its three blocks in source order. -/
def applyConfigOverrides (config : JVal) (props : EnrichProps) :
    Except Unit EnrichProps := do
  let props := overrideScalars config props
  let props ← overrideOptions config props
  return overrideRequires config props

/-- The last dotted segment of a key (`key.split('.').slice(-1)[0]`). -/
def lastSegment (key : String) : String :=
  (splitOnChar '.' key).getLastD ""

/-- `SchemaInferenceService.deriveGroupFromKey`. -/
def deriveGroupFromKey (key : String) : String :=
  let first0 := (splitOnChar '.' key).headD ""
  let first := if first0 = "" then key else first0
  match first with
  | "github" => "GitHub Copilot"
  | "githubPullRequests" => "GitHub PRs"
  | "terminal" => "Terminal"
  | "workbench" => "Workbench"
  | "editor" => "Editor"
  | "chat" => "Chat"
  | "git" => "Git"
  | "window" => "Window"
  | _ =>
    match first.toList with
    | [] => ""
    | c :: rest => String.mk (c.toUpper :: rest)

/-- `SchemaInferenceService.enrichSettingDefinition`: three ordered
passes over the property record, then assembly of the definition. -/
def enrichSettingDefinition (env : EnrichEnv) (key : String)
    (config : JVal) : Except Unit SettingDefinition := do
  let found := env.findSchemaForKey key
  let group := jsOr (config.getField "group") (.str (deriveGroupFromKey key))
  let label := jsOr (config.getField "title") (.str (lastSegment key))
  let props0 ← inferFromSchema env.selfExtensionId found (config.getField "default")
  let props1 := refineFromConfiguration (env.inspect key) props0
  let props ← applyConfigOverrides config props1
  return { key := key, type := props.type, title := label,
           description := jsOr (config.getField "description") label,
           group := group, min := props.min, max := props.max,
           step := props.step, options := props.options,
           requires := props.requires, default := props.default,
           recommended := config.getField "recommended" }

/-- The `requires`-style field chain read for both group containers and
members: `x.requires || x.requiresExtensions || x.requiresExtension`. -/
def requiresFieldChain (x : JVal) : JVal :=
  jsOr (x.getField "requires")
    (jsOr (x.getField "requiresExtensions") (x.getField "requiresExtension"))

/-- The config object built for one member of a grouped entry:
`{...setting, group, recommended: member ?? group (by explicit
undefined-check), requires: mergeRequires(group, member)}`
(ConfigurationService.parseConfiguration). -/
def groupMemberConfig (groupName : String) (groupRequires : List String)
    (groupRecommended : JVal) (setting : JVal) : JVal :=
  let memberRecommended :=
    if isDefined (setting.getField "recommended") then
      setting.getField "recommended"
    else groupRecommended
  let merged :=
    mergeRequires groupRequires (normalizeRequires (requiresFieldChain setting))
  objSet
    (objSet (objSet setting "group" (.str groupName))
      "recommended" memberRecommended)
    "requires" (.arr (merged.map JVal.str))

/-- Post-enrichment `info` attachment:
`if (typeof entry.info === 'string') enriched.info = entry.info`. -/
def attachInfo (entry : JVal) (enriched : SettingDefinition) :
    SettingDefinition :=
  match entry.getField "info" with
  | .str s => { enriched with info := JVal.str s }
  | _ => enriched

/-- The inner loop over a grouped entry's members
(ConfigurationService.parseConfiguration, grouped branch). -/
def parseGroupMembers (env : EnrichEnv) (groupName : String)
    (groupRequires : List String) (groupRecommended : JVal) :
    List JVal → Except Unit (List SettingDefinition)
  | [] => .ok []
  | setting :: rest =>
    if ¬ jsTruthy setting then
      parseGroupMembers env groupName groupRequires groupRecommended rest
    else
      match setting.getField "key" with
      | .str k => do
        let enriched ← enrichSettingDefinition env k
          (groupMemberConfig groupName groupRequires groupRecommended setting)
        let enriched := attachInfo setting enriched
        let tail ← parseGroupMembers env groupName groupRequires groupRecommended rest
        return enriched :: tail
      | _ => parseGroupMembers env groupName groupRequires groupRecommended rest

/-- The loop over top-level entries of the `settings` array
(ConfigurationService.parseConfiguration). -/
def parseEntries (env : EnrichEnv) :
    List JVal → Except Unit (List SettingDefinition)
  | [] => .ok []
  | entry :: rest =>
    if ¬ jsTruthy entry then parseEntries env rest
    else
      match entry.getField "group", entry.getField "settings" with
      | .str groupName, .arr members => do
        let groupRequires := normalizeRequires (requiresFieldChain entry)
        let groupRecommended := entry.getField "recommended"
        let defs ← parseGroupMembers env groupName groupRequires groupRecommended members
        let tail ← parseEntries env rest
        return defs ++ tail
      | _, _ =>
        match entry.getField "key" with
        | .str k => do
          let enriched ← enrichSettingDefinition env k entry
          let enriched := attachInfo entry enriched
          let tail ← parseEntries env rest
          return enriched :: tail
        | _ => parseEntries env rest

/-- `ConfigurationService.parseConfiguration`. -/
def parseConfiguration (env : EnrichEnv) (json : JVal) :
    Except Unit (List SettingDefinition) :=
  if ¬ jsTruthy json then .ok []
  else
    match json.getField "settings" with
    | .arr entries => parseEntries env entries
    | _ => .ok []

/-- The result record broadcast by the loader
(`ConfigurationLoadResult`). -/
structure ConfigurationLoadResult where
  definitions : List SettingDefinition
  source : String
  timestamp : String

/-- External outcomes consumed by one `loadConfiguration` call: the
configured URL (`get(...) || ''` before trimming), the value returned by
`fetchRemoteConfig` and by `loadBundledConfig` (both yield `null` on any
fetch/read/parse failure), the enricher environment and the clock. -/
structure LoadEnv where
  remoteUrl : String
  remoteFetch : JVal
  bundled : JVal
  enrichEnv : EnrichEnv
  now : String

/-- The JSON document the loader ends up parsing: the remote fetch when
a URL is configured and the fetch produced a truthy value, else the
bundled document (`json` after both fallback steps of the source). -/
def effectiveJson (env : LoadEnv) : JVal :=
  let json := if jsTrim env.remoteUrl ≠ "" then env.remoteFetch else JVal.null
  if ¬ jsTruthy json then env.bundled else json

/-- The `source` tag of the load result: `remote` exactly when a URL is
configured and the remote fetch produced a truthy value. -/
def loadSource (env : LoadEnv) : String :=
  if jsTrim env.remoteUrl ≠ "" ∧ jsTruthy env.remoteFetch then "remote"
  else "local"

/-- `ConfigurationService.loadConfiguration`: returns the result together
with the list of change notifications fired during the call; the `catch`
arm yields the empty `local` result.  `applyDefaultsToUserSettings` only
writes to the host configuration store inside its own `try` and does not
influence the result. -/
def loadConfiguration (env : LoadEnv) :
    ConfigurationLoadResult × List ConfigurationLoadResult :=
  match parseConfiguration env.enrichEnv (effectiveJson env) with
  | .ok definitions =>
    let r : ConfigurationLoadResult :=
      { definitions := definitions, source := loadSource env,
        timestamp := env.now }
    (r, [r])
  | .error _ =>
    let r : ConfigurationLoadResult :=
      { definitions := [], source := "local", timestamp := env.now }
    (r, [r])

/-- Persisted global state touched by the change poller:
`remoteConfig.lastRawText`, `remoteConfig.hasPendingChanges`,
`remoteConfig.lastChecked`. -/
structure RemoteCheckState where
  lastRaw : Option String
  pending : Bool
  lastChecked : Option String

/-- `ConfigurationService.checkForRemoteUpdates`: `remoteUrl` is the
configured value before trimming, `fetchRaw` the outcome of
`fetchRawRemoteConfig` (`none` on failure), `now` the clock reading. -/
def checkForRemoteUpdates (remoteUrl : String) (fetchRaw : Option String)
    (now : String) (s : RemoteCheckState) : Bool × RemoteCheckState :=
  let url := jsTrim remoteUrl
  if url = "" then
    (false, { s with pending := false })
  else
    match fetchRaw with
    | none => (false, s)
    | some rawText =>
      if rawText = "" then (false, s)
      else
        let s := { s with lastChecked := some now }
        match s.lastRaw with
        | none => (false, { s with lastRaw := some rawText, pending := false })
        | some lastKnownRaw =>
          if lastKnownRaw = "" then
            (false, { s with lastRaw := some rawText, pending := false })
          else if lastKnownRaw ≠ rawText then
            (true, { s with pending := true })
          else
            (false, { s with pending := false })

/-! Helper lemmas about the seen-settings map. -/

theorem seenLookup_assign_self (m : List (String × String)) (k ts : String) :
    seenLookup (seenAssign m k ts) k = some ts := by
  unfold seenLookup seenAssign
  rw [List.find?_cons_of_pos _ (by simp)]
  rfl

theorem seenLookup_assign_other (m : List (String × String)) (k ts k' : String)
    (h : k' ≠ k) : seenLookup (seenAssign m k ts) k' = seenLookup m k' := by
  unfold seenLookup seenAssign
  rw [List.find?_cons_of_neg _ (by simp [h.symm])]

theorem seenLookup_foldlAssign (ts : String) (keys : List String)
    (m : List (String × String)) (k : String) :
    seenLookup (keys.foldl (fun m k => seenAssign m k ts) m) k =
      if k ∈ keys then some ts else seenLookup m k := by
  induction keys generalizing m with
  | nil => simp
  | cons x xs ih =>
    simp only [List.foldl_cons]
    rw [ih]
    by_cases hx : k = x
    · subst hx
      by_cases hmem : k ∈ xs
      · simp [hmem]
      · simp [hmem, seenLookup_assign_self]
    · by_cases hmem : k ∈ xs
      · simp [hmem]
      · have hout : k ∉ x :: xs := by simp [hx, hmem]
        simp [hmem, hout, seenLookup_assign_other m x ts k hx]

theorem seenLookup_markAllAsSeen (ts : String)
    (defs : List SettingDefinition) (s : NewSettingsState) (k : String) :
    seenLookup (markAllAsSeen ts defs s).seenSettings k =
      if k ∈ defs.map (fun d => d.key) then some ts
      else seenLookup s.seenSettings k := by
  unfold markAllAsSeen
  rw [← seenLookup_foldlAssign ts (defs.map (fun d => d.key)) s.seenSettings k]
  rw [List.foldl_map]

/-- C1.  First-run rule: when `firstRun` is true, `initialize(defs)`
marks every key of `defs` as seen, so `isSettingNew` is false on each of
those keys and `getNewSettingsCount(defs)` is 0. -/
theorem firstRun_initialize_marks_all_seen (digest : String → String)
    (ts : String) (hts : ts ≠ "") (defs : List SettingDefinition)
    (s : NewSettingsState) (hfr : s.firstRun = true) :
    (defs.all (fun d =>
      (seenLookup (initializeTracker digest ts defs s).seenSettings d.key).isSome
        && !((initializeTracker digest ts defs s).isSettingNew d.key)) = true)
    ∧ getNewSettingsCount (initializeTracker digest ts defs s) defs = 0 := by
  have hseen : ∀ d ∈ defs,
      seenLookup (initializeTracker digest ts defs s).seenSettings d.key =
        some ts := by
    intro d hd
    simp only [initializeTracker, hfr, if_true]
    rw [seenLookup_markAllAsSeen]
    simp [List.mem_map_of_mem (fun d => d.key) hd]
  have hnotnew : ∀ d ∈ defs,
      (initializeTracker digest ts defs s).isSettingNew d.key = false := by
    intro d hd
    unfold NewSettingsState.isSettingNew
    rw [hseen d hd]
    simp [hts]
  constructor
  · rw [List.all_eq_true]
    intro d hd
    rw [hseen d hd, hnotnew d hd]
    rfl
  · unfold getNewSettingsCount
    rw [List.length_eq_zero, List.filter_eq_nil_iff]
    intro d hd
    simp [hnotnew d hd]

/-- C4.  `detectNewSettings` short-circuits on an unchanged hash, else
returns the definitions whose key is absent from the seen map (for
states whose stored timestamps are non-empty, which is every state the
tracker itself produces) and stores the new hash; hence an immediate
second call returns `[]`. -/
theorem detectNewSettings_spec (digest : String → String)
    (defs : List SettingDefinition) (s : NewSettingsState)
    (hclean : s.seenSettings.all (fun p => p.2 != "") = true) :
    (detectNewSettings digest defs s =
      if s.lastConfigHash = some (calculateConfigHash digest defs) then
        ([], s)
      else
        (defs.filter (fun d => (seenLookup s.seenSettings d.key).isNone),
         { s with lastConfigHash := some (calculateConfigHash digest defs) }))
    ∧ (detectNewSettings digest defs (detectNewSettings digest defs s).2).1
        = [] := by
  have hfilter : ∀ d : SettingDefinition,
      s.isSettingNew d.key = (seenLookup s.seenSettings d.key).isNone := by
    intro d
    unfold NewSettingsState.isSettingNew
    cases hl : seenLookup s.seenSettings d.key with
    | none => rfl
    | some t =>
      have ht : t ≠ "" := by
        rw [List.all_eq_true] at hclean
        unfold seenLookup at hl
        cases hf : s.seenSettings.find? (fun p => p.1 == d.key) with
        | none => rw [hf] at hl; simp at hl
        | some p =>
          rw [hf] at hl
          simp at hl
          have hp := hclean p (List.mem_of_find?_eq_some hf)
          simp only [bne_iff_ne, ne_eq] at hp
          intro he
          exact hp (hl ▸ he)
      simp [ht]
  have hdef : detectNewSettings digest defs s =
      if s.lastConfigHash = some (calculateConfigHash digest defs) then
        ([], s)
      else
        (defs.filter (fun d => s.isSettingNew d.key),
         { s with lastConfigHash := some (calculateConfigHash digest defs) }) :=
    rfl
  have hsecond : ∀ st : NewSettingsState,
      st.lastConfigHash = some (calculateConfigHash digest defs) →
        (detectNewSettings digest defs st).1 = [] := by
    intro st h
    unfold detectNewSettings
    rw [h]
    simp
  have hsecondState : (detectNewSettings digest defs s).2.lastConfigHash
      = some (calculateConfigHash digest defs) := by
    rw [hdef]
    by_cases hh : s.lastConfigHash = some (calculateConfigHash digest defs)
    · rw [if_pos hh]
      exact hh
    · rw [if_neg hh]
  constructor
  · rw [hdef]
    by_cases hh : s.lastConfigHash = some (calculateConfigHash digest defs)
    · rw [if_pos hh, if_pos hh]
    · rw [if_neg hh, if_neg hh]
      rw [List.filter_congr (fun d _ => (hfilter d).symm)]
  · exact hsecond _ hsecondState

/-- C9.  Monotonic seen-set: after `markAsSeen([k])`, `isSettingNew(k)`
is false and stays false across any sequence of `detectNewSettings`
calls, because `detectNewSettings` never modifies the seen map. -/
theorem markAsSeen_monotonic (digest : String → String) (ts : String)
    (hts : ts ≠ "") (k : String) (s : NewSettingsState)
    (runs : List (List SettingDefinition)) :
    ((markAsSeen ts [k] s).isSettingNew k = false)
    ∧ ((runs.foldl (fun st defs => (detectNewSettings digest defs st).2)
          (markAsSeen ts [k] s)).isSettingNew k = false)
    ∧ (∀ defs st,
        ((detectNewSettings digest defs st).2).seenSettings
          = st.seenSettings) := by
  have hpreserve : ∀ (defs : List SettingDefinition) (st : NewSettingsState),
      ((detectNewSettings digest defs st).2).seenSettings = st.seenSettings := by
    intro defs st
    unfold detectNewSettings
    by_cases hh : st.lastConfigHash = some (calculateConfigHash digest defs)
    · rw [if_pos hh]
    · rw [if_neg hh]
  have hmark : (markAsSeen ts [k] s).isSettingNew k = false := by
    unfold NewSettingsState.isSettingNew markAsSeen
    simp only [List.foldl_cons, List.foldl_nil]
    rw [seenLookup_assign_self]
    simp [hts]
  have hfold : ∀ (rs : List (List SettingDefinition)) (st : NewSettingsState),
      (rs.foldl (fun st defs => (detectNewSettings digest defs st).2)
        st).seenSettings = st.seenSettings := by
    intro rs
    induction rs with
    | nil => intro st; rfl
    | cons r rest ih =>
      intro st
      simp only [List.foldl_cons]
      rw [ih, hpreserve]
  refine ⟨hmark, ?_, hpreserve⟩
  unfold NewSettingsState.isSettingNew
  rw [hfold]
  unfold NewSettingsState.isSettingNew at hmark
  exact hmark

/-- C10.  On a non-first run, `initialize(defs)` only records the
configuration hash: the seen map is untouched, a `detectNewSettings(defs)`
immediately afterwards is short-circuited to `[]` by the matching hash,
and every key that was new beforehand is still reported new by
`isSettingNew`. -/
theorem initialize_nonFirstRun_hash_shortCircuit (digest : String → String)
    (ts : String) (defs : List SettingDefinition) (s : NewSettingsState)
    (hfr : s.firstRun = false) :
    ((initializeTracker digest ts defs s).seenSettings = s.seenSettings)
    ∧ ((initializeTracker digest ts defs s).lastConfigHash
        = some (calculateConfigHash digest defs))
    ∧ ((detectNewSettings digest defs (initializeTracker digest ts defs s)).1
        = [])
    ∧ (∀ k, s.isSettingNew k = true →
        (initializeTracker digest ts defs s).isSettingNew k = true) := by
  have hst : initializeTracker digest ts defs s
      = { s with lastConfigHash := some (calculateConfigHash digest defs) } := by
    simp [initializeTracker, hfr]
  refine ⟨by rw [hst], by rw [hst], ?_, ?_⟩
  · unfold detectNewSettings
    rw [hst]
    simp
  · intro k hk
    unfold NewSettingsState.isSettingNew
    rw [hst]
    exact hk

/-- A concrete definition used to instantiate the tracker theorems. -/
def sampleDef : SettingDefinition :=
  { key := "test.one", type := .str "boolean", title := .undefined,
    description := .undefined, group := .str "Test", min := .undefined,
    max := .undefined, step := .undefined, options := none, requires := none,
    default := .undefined, recommended := .undefined }

/-- A trivial digest standing in for sha256 in concrete instantiations. -/
def idDigest : String → String := fun h => h

/-- A persisted state whose first run has already happened. -/
def nonFirstState : NewSettingsState :=
  { seenSettings := [], lastConfigHash := none, firstRun := false }

/-- Witness for C1 at a concrete input. -/
theorem firstRun_initialize_marks_all_seen_witness :
    ([sampleDef].all (fun d =>
      (seenLookup (initializeTracker idDigest "2024-01-01" [sampleDef]
        createDefaultState).seenSettings d.key).isSome
        && !((initializeTracker idDigest "2024-01-01" [sampleDef]
          createDefaultState).isSettingNew d.key)) = true)
    ∧ getNewSettingsCount
        (initializeTracker idDigest "2024-01-01" [sampleDef] createDefaultState)
        [sampleDef] = 0 :=
  firstRun_initialize_marks_all_seen idDigest "2024-01-01" (by decide)
    [sampleDef] createDefaultState rfl

/-- Witness for C4 at a concrete input. -/
theorem detectNewSettings_spec_witness :
    (detectNewSettings idDigest [sampleDef] createDefaultState =
      if createDefaultState.lastConfigHash
          = some (calculateConfigHash idDigest [sampleDef]) then
        ([], createDefaultState)
      else
        ([sampleDef].filter (fun d =>
          (seenLookup createDefaultState.seenSettings d.key).isNone),
         { createDefaultState with
           lastConfigHash := some (calculateConfigHash idDigest [sampleDef]) }))
    ∧ (detectNewSettings idDigest [sampleDef]
        (detectNewSettings idDigest [sampleDef] createDefaultState).2).1 = [] :=
  detectNewSettings_spec idDigest [sampleDef] createDefaultState rfl

/-- Witness for C9 at a concrete input. -/
theorem markAsSeen_monotonic_witness :
    ((markAsSeen "2024-01-01" ["test.one"] createDefaultState).isSettingNew
        "test.one" = false)
    ∧ (([[sampleDef]].foldl
          (fun st defs => (detectNewSettings idDigest defs st).2)
          (markAsSeen "2024-01-01" ["test.one"] createDefaultState)).isSettingNew
        "test.one" = false)
    ∧ (∀ defs st,
        ((detectNewSettings idDigest defs st).2).seenSettings
          = st.seenSettings) :=
  markAsSeen_monotonic idDigest "2024-01-01" (by decide) "test.one"
    createDefaultState [[sampleDef]]

/-- Witness for C10 at a concrete input. -/
theorem initialize_nonFirstRun_hash_shortCircuit_witness :
    ((initializeTracker idDigest "2024-01-01" [sampleDef]
        nonFirstState).seenSettings = nonFirstState.seenSettings)
    ∧ ((initializeTracker idDigest "2024-01-01" [sampleDef]
        nonFirstState).lastConfigHash
          = some (calculateConfigHash idDigest [sampleDef]))
    ∧ ((detectNewSettings idDigest [sampleDef]
        (initializeTracker idDigest "2024-01-01" [sampleDef] nonFirstState)).1
          = [])
    ∧ (∀ k, nonFirstState.isSettingNew k = true →
        (initializeTracker idDigest "2024-01-01" [sampleDef]
          nonFirstState).isSettingNew k = true) :=
  initialize_nonFirstRun_hash_shortCircuit idDigest "2024-01-01" [sampleDef]
    nonFirstState rfl

/-- C6.  With a defined `recommended`, the evaluator sets
`hasRecommendation = true` and `matchesRecommendation` by `compareValues`;
the comparison is type-aware — truthiness for `boolean`, numeric coercion
(`NaN` never equal) for `number`, string coercion for `string`,
serialized equality for `json` — and a nullish current value matches
exactly the nullish recommendations.  Totality of these functions models
the source's never-throwing comparison. -/
theorem evaluateRecommendations_typeAware (cfgGet : String → JVal)
    (defs : List SettingDefinition) :
    (evaluateRecommendations cfgGet defs = defs.map (fun d =>
      { d with
        hasRecommendation := some (isDefined d.recommended)
        matchesRecommendation := some (isDefined d.recommended
          && compareValues (cfgGet d.key) d.recommended d.type) }))
    ∧ (∀ cur rec t, isNullish cur = true →
        (compareValues cur rec t = true ↔ isNullish rec = true))
    ∧ (∀ cur rec, isNullish cur = false →
        compareValues cur rec (.str "boolean")
          = (jsTruthy cur == jsTruthy rec))
    ∧ (∀ cur rec, isNullish cur = false →
        compareValues cur rec (.str "number")
          = (match jsToNumber cur, jsToNumber rec with
             | some a, some b => a == b
             | _, _ => false))
    ∧ (∀ cur rec, isNullish cur = false →
        compareValues cur rec (.str "string")
          = (jsToString cur == jsToString rec))
    ∧ (∀ cur rec, isNullish cur = false →
        compareValues cur rec (.str "json")
          = (jsonStringify cur == jsonStringify rec)) := by
  refine ⟨?_, ?_, ?_, ?_, ?_, ?_⟩
  · unfold evaluateRecommendations
    apply List.map_congr_left
    intro d _
    cases hr : isDefined d.recommended <;> simp [hr]
  · intro cur rec t h
    unfold compareValues
    rw [if_pos h]
  · intro cur rec h
    unfold compareValues
    rw [if_neg (by rw [h]; simp)]
    rfl
  · intro cur rec h
    unfold compareValues
    rw [if_neg (by rw [h]; simp)]
    rfl
  · intro cur rec h
    unfold compareValues
    rw [if_neg (by rw [h]; simp)]
    rfl
  · intro cur rec h
    unfold compareValues
    rw [if_neg (by rw [h]; simp)]
    rfl

/-- A definition carrying a recommendation, for concrete instantiation
(the spec's boolean-mismatch example). -/
def recDef : SettingDefinition := { sampleDef with recommended := .bool true }

/-- Witness for C6 at a concrete input: a definition recommending `true`
with current value `false`. -/
theorem evaluateRecommendations_typeAware_witness :
    evaluateRecommendations (fun _ => JVal.bool false) [recDef]
      = [recDef].map (fun d =>
          { d with
            hasRecommendation := some (isDefined d.recommended)
            matchesRecommendation := some (isDefined d.recommended
              && compareValues ((fun _ => JVal.bool false) d.key)
                   d.recommended d.type) }) :=
  (evaluateRecommendations_typeAware (fun _ => JVal.bool false) [recDef]).1


/-! Helper lemmas about object field update and the enricher pipeline. -/

theorem find?_setField_self (fs : List (String × JVal)) (n : String) (v : JVal) :
    (setField fs n v).find? (fun p => p.1 == n) = some (n, v) := by
  induction fs with
  | nil => simp [setField, List.find?]
  | cons hd tl ih =>
    by_cases hk : hd.1 == n
    · simp [setField, hk, List.find?]
    · simp [setField, hk, List.find?, ih]

theorem find?_setField_other (fs : List (String × JVal)) (n : String) (v : JVal)
    (m : String) (h : m ≠ n) :
    (setField fs n v).find? (fun p => p.1 == m)
      = fs.find? (fun p => p.1 == m) := by
  have hnm : (n == m) = false := by
    simp
    exact Ne.symm h
  induction fs with
  | nil => simp [setField, List.find?, hnm]
  | cons hd tl ih =>
    by_cases hk : hd.1 == n
    · have hd1 : hd.1 = n := by simpa using hk
      simp [setField, hk, List.find?, hnm, hd1]
    · by_cases hm : hd.1 == m
      · simp [setField, hk, List.find?, hm]
      · simp [setField, hk, List.find?, hm, ih]

theorem getField_objSet_self (v : JVal) (name : String) (val : JVal) :
    (objSet v name val).getField name = val := by
  cases v <;> simp [objSet, JVal.getField, List.find?, find?_setField_self]

theorem getField_objSet_other (v : JVal) (name : String) (val : JVal)
    (m : String) (h : m ≠ name) :
    (objSet v name val).getField m = v.getField m := by
  have hnm : (name == m) = false := by
    simp
    exact Ne.symm h
  cases v <;>
    simp [objSet, JVal.getField, List.find?, hnm,
      find?_setField_other _ _ _ _ h]

theorem normalizeRequires_map_str (l : List String) :
    normalizeRequires (.arr (l.map JVal.str)) = l := by
  have hfm : ∀ (xs : List String),
      (xs.map JVal.str).filterMap (fun v =>
        match v with
        | JVal.str s => some s
        | _ => none) = xs := by
    intro xs
    induction xs with
    | nil => rfl
    | cons x t ih => simp [List.filterMap_cons, ih]
  simp [normalizeRequires, jsTruthy, hfm]

theorem overrideScalars_requires (config : JVal) (p : EnrichProps) :
    (overrideScalars config p).requires = p.requires := by
  unfold overrideScalars
  split_ifs <;> rfl

theorem overrideScalars_options (config : JVal) (p : EnrichProps) :
    (overrideScalars config p).options = p.options := by
  unfold overrideScalars
  split_ifs <;> rfl

theorem overrideScalars_type (config : JVal) (p : EnrichProps) :
    (overrideScalars config p).type = p.type
      ∨ (jsTruthy (config.getField "type") = true
          ∧ (overrideScalars config p).type = config.getField "type") := by
  unfold overrideScalars
  by_cases ht : jsTruthy (config.getField "type")
  · right
    refine ⟨ht, ?_⟩
    simp only [ht, if_true]
    split_ifs <;> rfl
  · left
    simp only [ht, Bool.false_eq_true, if_neg, not_false_iff]
    split_ifs <;> rfl

theorem overrideOptions_ok_inv (config : JVal) (p p' : EnrichProps)
    (hok : overrideOptions config p = .ok p') :
    p'.requires = p.requires ∧ p'.type = p.type
      ∧ (p'.options = p.options
          ∨ ∀ os, p'.options = some os → ∀ o ∈ os, ∃ s, o.value = JVal.str s) := by
  unfold overrideOptions at hok
  by_cases hc : jsTruthy (config.getField "options") &&
      jsTruthy (jsLength (config.getField "options"))
  · rw [if_pos hc] at hok
    cases hov : config.getField "options" with
    | arr os =>
      rw [hov] at hok
      simp only [Except.ok.injEq] at hok
      subst hok
      refine ⟨rfl, rfl, Or.inr ?_⟩
      intro os' hos' o ho
      simp only [Option.some.injEq] at hos'
      subst hos'
      obtain ⟨x, _hx, hxo⟩ := List.mem_map.mp ho
      exact ⟨jsToString (x.getField "value"), by rw [← hxo]⟩
    | undefined => rw [hov] at hok; simp at hok
    | null => rw [hov] at hok; simp at hok
    | bool b => rw [hov] at hok; simp at hok
    | num n => rw [hov] at hok; simp at hok
    | str s => rw [hov] at hok; simp at hok
    | obj fs => rw [hov] at hok; simp at hok
  · rw [if_neg hc] at hok
    simp only [Except.ok.injEq] at hok
    subst hok
    exact ⟨rfl, rfl, Or.inl rfl⟩

theorem overrideRequires_spec (config : JVal) (p : EnrichProps) :
    ((overrideRequires config p).type = p.type)
    ∧ ((overrideRequires config p).options = p.options)
    ∧ ((overrideRequires config p).requires =
        if jsTruthy (config.getField "requires") &&
            jsTruthy (jsLength (config.getField "requires")) then
          some (normalizeRequires (config.getField "requires"))
        else p.requires) := by
  unfold overrideRequires
  split_ifs <;> exact ⟨rfl, rfl, rfl⟩

theorem applyConfigOverrides_ok_inv (config : JVal) (p p' : EnrichProps)
    (hok : applyConfigOverrides config p = .ok p') :
    ∃ p2, overrideOptions config (overrideScalars config p) = .ok p2
      ∧ p' = overrideRequires config p2 := by
  replace hok : (overrideOptions config (overrideScalars config p)).bind
      (fun props => pure (overrideRequires config props)) = Except.ok p' := hok
  cases hov : overrideOptions config (overrideScalars config p) with
  | error e =>
    rw [hov] at hok
    simp [Except.bind] at hok
  | ok p2 =>
    rw [hov] at hok
    simp only [Except.bind, pure, Except.pure, Except.ok.injEq] at hok
    exact ⟨p2, rfl, hok.symm⟩

theorem enrichSettingDefinition_ok_inv (env : EnrichEnv) (key : String)
    (config : JVal) (d : SettingDefinition)
    (hok : enrichSettingDefinition env key config = .ok d) :
    ∃ p0 p, inferFromSchema env.selfExtensionId (env.findSchemaForKey key)
        (config.getField "default") = .ok p0
      ∧ applyConfigOverrides config
          (refineFromConfiguration (env.inspect key) p0) = .ok p
      ∧ d = { key := key, type := p.type,
              title := jsOr (config.getField "title") (.str (lastSegment key)),
              description := jsOr (config.getField "description")
                (jsOr (config.getField "title") (.str (lastSegment key))),
              group := jsOr (config.getField "group")
                (.str (deriveGroupFromKey key)),
              min := p.min, max := p.max, step := p.step,
              options := p.options, requires := p.requires,
              default := p.default,
              recommended := config.getField "recommended" } := by
  replace hok : (inferFromSchema env.selfExtensionId (env.findSchemaForKey key)
      (config.getField "default")).bind
        (fun props0 =>
          (applyConfigOverrides config
            (refineFromConfiguration (env.inspect key) props0)).bind
            (fun props => pure
              { key := key, type := props.type,
                title := jsOr (config.getField "title") (.str (lastSegment key)),
                description := jsOr (config.getField "description")
                  (jsOr (config.getField "title") (.str (lastSegment key))),
                group := jsOr (config.getField "group")
                  (.str (deriveGroupFromKey key)),
                min := props.min, max := props.max, step := props.step,
                options := props.options, requires := props.requires,
                default := props.default,
                recommended := config.getField "recommended" }))
      = Except.ok d := hok
  cases hinf : inferFromSchema env.selfExtensionId (env.findSchemaForKey key)
      (config.getField "default") with
  | error e =>
    rw [hinf] at hok
    simp [Except.bind] at hok
  | ok p0 =>
    rw [hinf] at hok
    simp only [Except.bind] at hok
    cases happ : applyConfigOverrides config
        (refineFromConfiguration (env.inspect key) p0) with
    | error e =>
      rw [happ] at hok
      simp [Except.bind] at hok
    | ok p =>
      rw [happ] at hok
      simp only [Except.bind, pure, Except.pure, Except.ok.injEq] at hok
      exact ⟨p0, p, rfl, happ, hok.symm⟩

/-- The four runtime type tags a well-formed definition may carry. -/
def fourTypes : List JVal :=
  [.str "boolean", .str "number", .str "string", .str "json"]

theorem schemaTypeAndStep_four (sType : JVal) :
    (schemaTypeAndStep sType).1 ∈ fourTypes := by
  unfold schemaTypeAndStep
  split <;> simp [fourTypes]

theorem extractEnumOptions_str (schema : JVal)
    (o : Option (List SettingOption)) (hok : extractEnumOptions schema = .ok o) :
    ∀ os, o = some os → ∀ x ∈ os, ∃ s, x.value = JVal.str s := by
  unfold extractEnumOptions at hok
  split at hok
  · simp only [Except.ok.injEq] at hok
    subst hok
    intro os hos x hx
    simp only [Option.some.injEq] at hos
    subst hos
    obtain ⟨pr, _hpr, hpx⟩ := List.mem_map.mp hx
    exact ⟨jsToString pr.2, by rw [← hpx]⟩
  · split at hok
    · split at hok
      · split at hok
        · simp only [Except.ok.injEq] at hok
          subst hok
          intro os hos
          simp at hos
        · simp only [Except.ok.injEq] at hok
          subst hok
          intro os hos x hx
          simp only [Option.some.injEq] at hos
          subst hos
          obtain ⟨v, _hv, hvx⟩ := List.mem_map.mp hx
          exact ⟨jsToString v, by rw [← hvx]⟩
      · exact absurd hok (by simp)
    · simp only [Except.ok.injEq] at hok
      subst hok
      intro os hos
      simp at hos

theorem inferFromSchema_ok_inv (selfId : String)
    (found : Option SchemaLookupResult) (cd : JVal) (p0 : EnrichProps)
    (hok : inferFromSchema selfId found cd = .ok p0) :
    p0.type ∈ fourTypes
      ∧ (∀ os, p0.options = some os → ∀ x ∈ os, ∃ s, x.value = JVal.str s) := by
  unfold inferFromSchema at hok
  split at hok
  · simp only [Except.ok.injEq] at hok
    subst hok
    refine ⟨by simp [baseProps, fourTypes], ?_⟩
    intro os hos
    simp [baseProps] at hos
  · split at hok
    · exact absurd hok (by simp)
    · rename_i hext
      simp only [Except.ok.injEq] at hok
      subst hok
      exact ⟨schemaTypeAndStep_four _, extractEnumOptions_str _ _ hext⟩

theorem refineSample_type_opts (sample : JVal) (p : EnrichProps) :
    (refineSample sample p).type ∈ fourTypes
      ∧ (refineSample sample p).options = p.options := by
  unfold refineSample
  split <;> simp [fourTypes]

theorem refineFromConfiguration_type_opts (info : InspectInfo)
    (p : EnrichProps) :
    ((refineFromConfiguration info p).type = p.type
      ∨ (refineFromConfiguration info p).type ∈ fourTypes)
    ∧ (refineFromConfiguration info p).options = p.options := by
  unfold refineFromConfiguration
  split
  · exact ⟨Or.inl rfl, rfl⟩
  · split
    · exact ⟨Or.inr (refineSample_type_opts _ _).1,
        (refineSample_type_opts _ _).2⟩
    · exact ⟨Or.inr (refineSample_type_opts _ _).1,
        (refineSample_type_opts _ _).2⟩

/-- An enricher environment with no registered schemas and an empty
configuration store, for concrete instantiation. -/
def noSchemaEnv : EnrichEnv :=
  { findSchemaForKey := fun _ => none,
    selfExtensionId := "publisher.on-by-default",
    inspect := fun _ => {} }

/-- C7 counterexample: an arbitrary raw `type` override passes through
the enricher unvalidated, so the resulting type can lie outside the four
canonical tags. -/
theorem enrichType_passthrough_counterexample :
    (match enrichSettingDefinition noSchemaEnv "a.b"
        (.obj [("key", .str "a.b"), ("type", .str "potato")]) with
     | .ok d => d.type
     | .error _ => JVal.undefined) = .str "potato"
    ∧ JVal.str "potato" ∉ fourTypes := by
  refine ⟨by rfl, ?_⟩
  simp [fourTypes]

/-- C7 amended: whenever the raw entry supplies no truthy `type`
override, or supplies one of the four canonical tags, the enriched type
is one of the four; and — unconditionally, for every raw entry
whatsoever — any options list present carries only string-coerced
values. -/
theorem enrichType_invariant (env : EnrichEnv) (key : String) (config : JVal)
    (d : SettingDefinition)
    (hok : enrichSettingDefinition env key config = .ok d) :
    ((jsTruthy (config.getField "type") = false
        ∨ config.getField "type" ∈ fourTypes) →
      d.type ∈ fourTypes)
    ∧ (∀ os, d.options = some os → ∀ o ∈ os, ∃ s, o.value = JVal.str s) := by
  obtain ⟨p0, p, hinf, happ, hd⟩ :=
    enrichSettingDefinition_ok_inv env key config d hok
  obtain ⟨p2, hov, hp⟩ := applyConfigOverrides_ok_inv _ _ _ happ
  have hreq := overrideRequires_spec config p2
  obtain ⟨hov_req, hov_type, hov_opts⟩ := overrideOptions_ok_inv _ _ _ hov
  have hscal_type := overrideScalars_type config
    (refineFromConfiguration (env.inspect key) p0)
  have hscal_opts := overrideScalars_options config
    (refineFromConfiguration (env.inspect key) p0)
  have hrefine := refineFromConfiguration_type_opts (env.inspect key) p0
  have hinfer := inferFromSchema_ok_inv _ _ _ _ hinf
  constructor
  · intro htype
    have hdt : d.type = p2.type := by
      rw [hd, hp]
      exact hreq.1
    rw [hdt, hov_type]
    rcases hscal_type with h | ⟨htr, hty⟩
    · rw [h]
      rcases hrefine.1 with h2 | h2
      · rw [h2]
        exact hinfer.1
      · exact h2
    · rw [hty]
      rcases htype with hf | hmem
      · rw [htr] at hf
        cases hf
      · exact hmem
  · intro os hos o ho
    have hdo : d.options = p2.options := by
      rw [hd, hp]
      exact hreq.2.1
    rcases hov_opts with heq | hstr
    · have hp0 : p0.options = some os := by
        rw [← hrefine.2, ← hscal_opts, ← heq, ← hdo]
        exact hos
      exact hinfer.2 os hp0 o ho
    · exact hstr os (by rw [← hdo]; exact hos) o ho

/-- The enriched definition produced for `a.b` with no schema, no live
value, and no overrides. -/
def plainDef : SettingDefinition :=
  { key := "a.b", type := .str "string", title := .str "b",
    description := .str "b", group := .str "A", min := .undefined,
    max := .undefined, step := .undefined, options := none, requires := none,
    default := .undefined, recommended := .undefined }

/-- Witness for the amended C7 at a concrete input. -/
theorem enrichType_invariant_witness : plainDef.type ∈ fourTypes :=
  (enrichType_invariant noSchemaEnv "a.b" (.obj [("key", .str "a.b")])
    plainDef (by rfl)).1 (Or.inl rfl)

/-- A grouped configuration whose group and member both carry
`requires`. -/
def groupRequiresJson : JVal :=
  .obj [("settings", .arr [
    .obj [("group", .str "G"), ("requires", .arr [.str "ext.a"]),
          ("settings", .arr [
            .obj [("key", .str "k.x"), ("requires", .arr [.str "ext.b"])]])]])]

/-- C2 counterexample: a member supplying its own `requires` list does
not win outright — the enriched `requires` is the group list merged with
the member list, not the member's list alone. -/
theorem groupRequires_member_not_outright :
    (match parseConfiguration noSchemaEnv groupRequiresJson with
     | .ok l => l.map (fun d => d.requires)
     | .error _ => []) = [some ["ext.a", "ext.b"]]
    ∧ (some ["ext.a", "ext.b"] : Option (List String)) ≠ some ["ext.b"] := by
  refine ⟨by rfl, by simp⟩

/-- C2 amended: for a member of a grouped entry, the member's own
`recommended` (when defined) wins over the group's, but `requires` is
the deduplicated group-then-member merge; when that merge is non-empty
it is exactly the enriched definition's `requires`. -/
theorem groupInheritance_requires_merged (env : EnrichEnv)
    (groupName : String) (groupRequires : List String)
    (groupRecommended : JVal) (setting : JVal) (key : String)
    (d : SettingDefinition)
    (hok : enrichSettingDefinition env key
      (groupMemberConfig groupName groupRequires groupRecommended setting)
        = .ok d) :
    d.recommended = (if isDefined (setting.getField "recommended") then
        setting.getField "recommended" else groupRecommended)
    ∧ (mergeRequires groupRequires
          (normalizeRequires (requiresFieldChain setting)) ≠ [] →
        d.requires = some (mergeRequires groupRequires
          (normalizeRequires (requiresFieldChain setting)))) := by
  obtain ⟨p0, p, hinf, happ, hd⟩ :=
    enrichSettingDefinition_ok_inv env key _ d hok
  obtain ⟨p2, hov, hp⟩ := applyConfigOverrides_ok_inv _ _ _ happ
  have hreqspec := overrideRequires_spec
    (groupMemberConfig groupName groupRequires groupRecommended setting) p2
  have hrecf : (groupMemberConfig groupName groupRequires groupRecommended
      setting).getField "recommended"
      = (if isDefined (setting.getField "recommended") then
          setting.getField "recommended" else groupRecommended) := by
    unfold groupMemberConfig
    rw [getField_objSet_other _ _ _ _ (by decide)]
    rw [getField_objSet_self]
  have hreqf : (groupMemberConfig groupName groupRequires groupRecommended
      setting).getField "requires"
      = .arr ((mergeRequires groupRequires
          (normalizeRequires (requiresFieldChain setting))).map JVal.str) := by
    unfold groupMemberConfig
    rw [getField_objSet_self]
  constructor
  · rw [hd]
    exact hrecf
  · intro hne
    have hlen : (jsTruthy ((groupMemberConfig groupName groupRequires
          groupRecommended setting).getField "requires")
        && jsTruthy (jsLength ((groupMemberConfig groupName groupRequires
          groupRecommended setting).getField "requires"))) = true := by
      rw [hreqf]
      simp [jsTruthy, jsLength, List.length_map]
      intro hzero
      exact hne hzero
    have hdr : d.requires = some (normalizeRequires
        ((groupMemberConfig groupName groupRequires groupRecommended
          setting).getField "requires")) := by
      rw [hd, hp, hreqspec.2.2, if_pos hlen]
    rw [hdr, hreqf, normalizeRequires_map_str]

/-- The enriched definition for the merged-`requires` instantiation. -/
def mergedReqDef : SettingDefinition :=
  { key := "k.x", type := .str "string", title := .str "x",
    description := .str "x", group := .str "G", min := .undefined,
    max := .undefined, step := .undefined, options := none,
    requires := some ["ext.a", "ext.b"], default := .undefined,
    recommended := .undefined }

/-- Witness for the amended C2 at a concrete input. -/
theorem groupInheritance_requires_merged_witness :
    mergedReqDef.requires = some ["ext.a", "ext.b"] :=
  (groupInheritance_requires_merged noSchemaEnv "G" ["ext.a"] .undefined
    (.obj [("key", .str "k.x"), ("requires", .arr [.str "ext.b"])]) "k.x"
    mergedReqDef (by rfl)).2 (by decide)

/-- The grouped configuration of the spec's inheritance example:
group-level `recommended: true` with one member overriding it. -/
def chatGroupJson : JVal :=
  .obj [("settings", .arr [
    .obj [("group", .str "Chat"), ("recommended", .bool true),
          ("settings", .arr [
            .obj [("key", .str "a.b")],
            .obj [("key", .str "a.c"), ("recommended", .bool false)]])]])]

/-- C3.  Enriching `{group:"Chat", recommended:true,
settings:[{key:"a.b"}, {key:"a.c", recommended:false}]}` yields `a.b`
with `recommended === true` (inherited) and `a.c` with
`recommended === false` (member override), end to end through
`parseConfiguration`. -/
theorem groupedRecommended_example :
    (match parseConfiguration noSchemaEnv chatGroupJson with
     | .ok l => l.map (fun d => (d.key, d.recommended))
     | .error _ => []) = [("a.b", JVal.bool true), ("a.c", JVal.bool false)] := by
  rfl

/-- C5.  `loadConfiguration` is total (the source's catch-all `try`
swallows every exception), fires exactly one change notification per
call — carrying the same result it returns — and when both the remote
fetch and the bundled fallback fail, or parsing throws, the result has
an empty definition list and source `local`. -/
theorem loadConfiguration_total_single_event (env : LoadEnv) :
    (loadConfiguration env).2 = [(loadConfiguration env).1]
    ∧ (((env.remoteFetch = JVal.null ∧ env.bundled = JVal.null)
        ∨ parseConfiguration env.enrichEnv (effectiveJson env)
            = .error ()) →
      (loadConfiguration env).1
        = { definitions := [], source := "local", timestamp := env.now }) := by
  constructor
  · unfold loadConfiguration
    cases h : parseConfiguration env.enrichEnv (effectiveJson env) <;> simp [h]
  · intro hcond
    rcases hcond with ⟨hrf, hb⟩ | herr
    · have hjson : effectiveJson env = JVal.null := by
        unfold effectiveJson
        rw [hrf, hb]
        simp [jsTruthy, ite_self]
      have hsrc : loadSource env = "local" := by
        unfold loadSource
        rw [if_neg]
        intro hand
        rw [hrf] at hand
        exact absurd hand.2 (by simp [jsTruthy])
      unfold loadConfiguration
      rw [hjson]
      have hparse : parseConfiguration env.enrichEnv JVal.null = .ok [] := rfl
      rw [hparse]
      simp [hsrc]
    · unfold loadConfiguration
      rw [herr]

/-- A load environment in which the remote fetch and the bundled
fallback both failed. -/
def failLoadEnv : LoadEnv :=
  { remoteUrl := "https://example.invalid/config.json",
    remoteFetch := .null, bundled := .null, enrichEnv := noSchemaEnv,
    now := "2024-01-01T00:00:00Z" }

/-- Witness for C5 at a concrete input. -/
theorem loadConfiguration_total_single_event_witness :
    (loadConfiguration failLoadEnv).1
      = { definitions := [], source := "local",
          timestamp := "2024-01-01T00:00:00Z" } :=
  (loadConfiguration_total_single_event failLoadEnv).2 (Or.inl ⟨rfl, rfl⟩)

/-- The fresh remote-check state (no snapshot, no flag, no timestamp). -/
def rcInitState : RemoteCheckState :=
  { lastRaw := none, pending := false, lastChecked := none }

/-- C8 counterexample: a check performed with no configured URL does not
refresh the persisted last-checked timestamp, so "every check refreshes
the timestamp" fails as stated. -/
theorem checkForRemoteUpdates_noRefresh_counterexample :
    (checkForRemoteUpdates "" none "T1" rcInitState).2.lastChecked = none
    ∧ (none : Option String) ≠ some "T1" := by
  exact ⟨rfl, by simp⟩

/-- C8 amended: every check that obtains non-empty raw text refreshes
the last-checked timestamp; with no (or an empty) stored snapshot such a
check seeds the snapshot, clears the pending flag and reports no update;
with a non-empty snapshot it reports an update and sets the persisted
pending flag exactly when the text differs (clearing it otherwise,
leaving the snapshot unchanged either way).  Checks with no configured
URL or a failed/empty fetch leave the timestamp untouched. -/
theorem checkForRemoteUpdates_spec (url raw now : String)
    (s : RemoteCheckState) (hurl : jsTrim url ≠ "") (hraw : raw ≠ "") :
    ((checkForRemoteUpdates url (some raw) now s).2.lastChecked = some now)
    ∧ ((s.lastRaw = none ∨ s.lastRaw = some "") →
        checkForRemoteUpdates url (some raw) now s
          = (false, { lastRaw := some raw, pending := false,
                      lastChecked := some now }))
    ∧ (∀ prev, s.lastRaw = some prev → prev ≠ "" →
        (checkForRemoteUpdates url (some raw) now s).1 = decide (prev ≠ raw)
        ∧ (checkForRemoteUpdates url (some raw) now s).2.pending
            = decide (prev ≠ raw)
        ∧ (checkForRemoteUpdates url (some raw) now s).2.lastRaw
            = s.lastRaw) := by
  have hstep : checkForRemoteUpdates url (some raw) now s
      = (match s.lastRaw with
         | none =>
           (false, { lastRaw := some raw, pending := false,
                     lastChecked := some now })
         | some lastKnownRaw =>
           if lastKnownRaw = "" then
             (false, { lastRaw := some raw, pending := false,
                       lastChecked := some now })
           else if lastKnownRaw ≠ raw then
             (true, { s with pending := true, lastChecked := some now })
           else
             (false, { s with pending := false, lastChecked := some now })) := by
    unfold checkForRemoteUpdates
    rw [if_neg hurl]
    dsimp only
    rw [if_neg hraw]
  refine ⟨?_, ?_, ?_⟩
  · cases hlr : s.lastRaw with
    | none => rw [hstep, hlr]
    | some prev =>
      rw [hstep, hlr]
      by_cases hp : prev = ""
      · simp [hp]
      · by_cases hd : prev ≠ raw
        · simp [hp, hd]
        · simp [hp, hd]
  · intro hseed
    rcases hseed with h | h
    · rw [hstep, h]
    · rw [hstep, h]
      simp
  · intro prev hprev hpne
    rw [hstep, hprev]
    by_cases hd : prev ≠ raw
    · simp [hpne, hd]
    · simp [hpne, hd]

/-- Witness for the amended C8 at a concrete input: the first check that
obtains raw text seeds the snapshot, clears the flag, refreshes the
timestamp and reports no update. -/
theorem checkForRemoteUpdates_spec_witness :
    checkForRemoteUpdates "https://example.invalid/config.json"
        (some "AAA") "T1" rcInitState
      = (false, { lastRaw := some "AAA", pending := false,
                  lastChecked := some "T1" }) :=
  (checkForRemoteUpdates_spec "https://example.invalid/config.json" "AAA"
    "T1" rcInitState (by decide) (by decide)).2.1 (Or.inl rfl)
